import Mathlib

/-!
Verification of the gnucash-mcp ledger query core.

This file shallowly embeds the Go sources of the repository:
* `internal/gnucash/models.go` — `FormatDecimal`, the `Account` / `Transaction` /
  `Split` entity types;
* the service layer (`Service`): `resolveAccount`, `ListAccounts`, `GetBalance`,
  `GetTransactions`, `SpendingByCategory`, `IncomeVsExpenses`;
* the store layer (`DB`): `GetAllAccounts`, `FindAccountsByName`,
  `GetSplitsForAccount`, `GetBalanceForAccount`, `GetExpenseSplits`,
  `GetMonthlyIncomeExpenses`.

Modelling conventions, chosen to mirror the SQLite-backed Go code:
* `int64` values are `Int`; where Go arithmetic can wrap (two's-complement
  overflow is defined behaviour in Go) the wrap is made explicit with `wrap64`.
  Go's truncated division/remainder are `Int.tdiv` / `Int.tmod`.
* The text timestamps `"YYYY-MM-DD HH:MM:SS"` stored in the `post_date` column
  are modelled by the `Nat` obtained by reading their digits, `YYYYMMDDhhmmss`.
  For equal-length well-formed timestamps the SQLite text comparison used by
  the queries coincides with the numeric order of this encoding.  A date
  parameter `"YYYY-MM-DD"` is the `Nat` `YYYYMMDD`; appending `" 00:00:00"`
  resp. `" 23:59:59"` becomes `d * 1000000` resp. `d * 1000000 + 235959`.
* SQL `LOWER` and Go `strings.EqualFold`/`strings.ToLower` are modelled by
  ASCII lowercasing (`lowerStr`), and `LIKE '%p%'` for a metacharacter-free
  pattern by substring containment (`containsSeq`).
* SQL `ORDER BY` is a stable sort (`List.insertionSort`) by the ordered column;
  result-set order for tied keys is thereby fixed to one of the orders SQLite
  may produce.
* Go `map` contents are association lists; where the Go code ranges over a map
  (whose enumeration order Go randomises), the embedding takes the enumeration
  order as an explicit input, so that order-dependence can be stated.
* Quoting of user input inside error/report strings is kept except that the
  Go sources wrap some names in apostrophe quotes; the quotes are elided here.
-/

namespace GnuCash

/-- ASCII lowercasing of one character, the behaviour of SQL `LOWER` and of
`strings.ToLower`/`strings.EqualFold` on the ASCII account data. -/
def lowerChar (c : Char) : Char :=
  if 65 ≤ c.toNat ∧ c.toNat ≤ 90 then Char.ofNat (c.toNat + 32) else c

/-- ASCII lowercasing of a string. -/
def lowerStr (s : String) : String := ⟨s.data.map lowerChar⟩

/-- Model of Go `strings.EqualFold` on the ASCII data this program handles. -/
def eqFold (a b : String) : Bool := lowerStr a == lowerStr b

/-- Byte-lexicographic `≤` on character lists, the order SQLite text
comparison and Go `sort.Strings` use. -/
def lexLe : List Char → List Char → Bool
  | [], _ => true
  | _ :: _, [] => false
  | a :: as, b :: bs =>
    if a.toNat < b.toNat then true
    else if b.toNat < a.toNat then false
    else lexLe as bs

/-- Byte-lexicographic `≤` on strings. -/
def strLe (a b : String) : Bool := lexLe a.data b.data

/-- The proposition form of `strLe`, used as the sorting relation. -/
def strLeP (a b : String) : Prop := strLe a b = true

instance : DecidableRel strLeP := fun a b => inferInstanceAs (Decidable (strLe a b = true))

/-- Decides whether `p` is an initial segment of the second list. -/
def headMatch : List Char → List Char → Bool
  | [], _ => true
  | _ :: _, [] => false
  | a :: as, b :: bs => a == b && headMatch as bs

/-- Decides whether `p` occurs contiguously in the second list; the model of
SQL `LIKE '%p%'` (for patterns without metacharacters) and of
`strings.Contains`. -/
def containsSeq (p : List Char) : List Char → Bool
  | [] => headMatch p []
  | c :: rest => headMatch p (c :: rest) || containsSeq p rest

/-- Case-insensitive substring test: the `WHERE LOWER(name) LIKE ?` filter of
`FindAccountsByName` with pattern `"%" + strings.ToLower(name) + "%"`. -/
def likeContains (pat s : String) : Bool :=
  containsSeq (lowerStr pat).data (lowerStr s).data

/-- Wraps an integer into `[-2^63, 2^63)`, the two's-complement behaviour Go
defines for `int64` arithmetic. -/
def wrap64 (n : Int) : Int := (n + 2 ^ 63) % 2 ^ 64 - 2 ^ 63

/-- Go `fmt` `"%02d"`: decimal rendering zero-padded to width two (a negative
value of width ≥ 2 is rendered as-is). -/
def pad2Int (n : Int) : String :=
  if 0 ≤ n ∧ n < 10 then "0" ++ toString n else toString n

/-- Decimal rendering of a natural number zero-padded to width two. -/
def pad2Nat (n : Nat) : String :=
  if n < 10 then "0" ++ toString n else toString n

/-- FormatDecimal from `internal/gnucash/models.go`.  Go `int64` negation wraps
(`-(-2^63) = -2^63`), as does the multiplication by 100; both are made explicit
with `wrap64`.  (`Int.tdiv`/`Int.tmod` are Go `/` and `%`.) -/
def FormatDecimal (num denom : Int) : String :=
  if denom = 0 then "0.00"
  else
    let negative := num < 0
    let n := if num < 0 then wrap64 (-num) else num
    let whole := Int.tdiv n denom
    let frac := Int.tdiv (wrap64 (Int.tmod n denom * 100)) denom
    (if negative then "-" else "") ++ toString whole ++ "." ++ pad2Int frac

/-- Rendering contract exactly as the specification words it: `[-]W.FF` with
`W` the truncated quotient of `|numerator|` by the denominator and
`FF = (|numerator| mod denominator) * 100 / denominator` in integer division,
the sign emitted only for negative values, and `"0.00"` for a zero
denominator.  Stated with exact (non-wrapping) integer arithmetic; compared
against the source-derived `FormatDecimal`. -/
def specDecimal (num denom : Int) : String :=
  if denom = 0 then "0.00"
  else
    let a := num.natAbs
    let d := denom.natAbs
    (if num < 0 then "-" else "") ++ toString (a / d) ++ "." ++ pad2Nat (a % d * 100 / d)

/-- Account from `models.go` (the `Children` pointer slice is dropped; the
hierarchy is recovered through `parentGuid`).  `fullName` is the computed
`FullName` field; no code in the repository ever populates it, so it stays at
its Go zero value `""` for every account the store returns. -/
structure Account where
  guid : String
  name : String
  accountType : String
  parentGuid : String
  descr : String
  hidden : Bool
  placeholder : Bool
  fullName : String := ""
deriving DecidableEq

/-- Split from `models.go`: one leg of a double-entry transaction.
`accountName` is joined from the accounts table where the query provides it,
otherwise it stays `""`. -/
structure Split where
  guid : String
  txGuid : String
  accountGuid : String
  accountName : String
  memo : String
  valueNum : Int
  valueDenom : Int
deriving DecidableEq

/-- Transaction from `models.go`: header plus its splits.  `postDate` is the
numeric `YYYYMMDDhhmmss` reading of the stored text timestamp. -/
structure Transaction where
  guid : String
  postDate : Nat
  descr : String
  splits : List Split
deriving DecidableEq

/-- Row of the persisted `accounts` table (`parent_guid IS NULL` is the empty
string, matching the `COALESCE(parent_guid, '')` scan in the Go code; no real
account has the empty string as its guid). -/
structure AccountRow where
  guid : String
  name : String
  accountType : String
  parentGuid : String
  descr : String
  hidden : Bool
  placeholder : Bool
deriving DecidableEq

/-- Row of the persisted `transactions` table. -/
structure TxRow where
  guid : String
  postDate : Nat
  descr : String
deriving DecidableEq

/-- Row of the persisted `splits` table. -/
structure SplitRow where
  guid : String
  txGuid : String
  accountGuid : String
  memo : String
  valueNum : Int
  valueDenom : Int
deriving DecidableEq

/-- The read-only GnuCash SQLite database: the three tables the queries use. -/
structure Store where
  accounts : List AccountRow
  transactions : List TxRow
  splits : List SplitRow
deriving DecidableEq

/-- Comparison relation of `ORDER BY name`: byte order on the name column. -/
def accLe (a b : Account) : Prop := strLeP a.name b.name

instance : DecidableRel accLe := fun a b => inferInstanceAs (Decidable (strLeP a.name b.name))

/-- Scan of one `accounts` row into the domain entity, as `rows.Scan` fills an
`Account` in `GetAllAccounts` / `FindAccountsByName` (`FullName` untouched). -/
def scanAccount (r : AccountRow) : Account :=
  { guid := r.guid, name := r.name, accountType := r.accountType,
    parentGuid := r.parentGuid, descr := r.descr,
    hidden := r.hidden, placeholder := r.placeholder }

/-- GetAllAccounts from the store layer: every account that has a parent row
(`INNER JOIN accounts p ON c.parent_guid = p.guid` with
`c.parent_guid IS NOT NULL AND p.name != 'Template Root'`), ordered by name. -/
def GetAllAccounts (st : Store) : List Account :=
  List.insertionSort accLe
    (st.accounts.flatMap fun c =>
      if c.parentGuid ≠ "" then
        st.accounts.filterMap fun p =>
          if p.guid = c.parentGuid ∧ p.name ≠ "Template Root" then some (scanAccount c)
          else none
      else [])

/-- FindAccountsByName from the store layer: case-insensitive substring match
of the input against the `name` column, ordered by name. -/
def FindAccountsByName (st : Store) (name : String) : List Account :=
  List.insertionSort accLe
    ((st.accounts.filter fun a => likeContains name a.name).map scanAccount)

/-- strings.Join with a separator, as the Go code builds multi-line text. -/
def joinSep (sep : String) : List String → String
  | [] => ""
  | [x] => x
  | x :: y :: t => x ++ sep ++ joinSep sep (y :: t)

/-- One candidate line of the ambiguity error message built by
`resolveAccount`: `"  - NAME [TYPE]"`. -/
def candidateLine (a : Account) : String :=
  "  - " ++ a.name ++ " [" ++ a.accountType ++ "]"

/-- resolveAccount from the service layer: not-found on zero matches, first
case-insensitive exact match wins, ambiguity error listing every candidate
when several non-exact matches remain. -/
def resolveAccount (st : Store) (name : String) : Except String Account :=
  match FindAccountsByName st name with
  | [] => .error ("no account found matching " ++ name)
  | a :: rest =>
    match (a :: rest).find? (fun x => eqFold x.name name) with
    | some x => .ok x
    | none =>
      if rest.length + 1 > 1 then
        .error ("multiple accounts match " ++ name ++ ":\n"
          ++ joinSep "\n" ((a :: rest).map candidateLine)
          ++ "\nPlease be more specific.")
      else .ok a

/-- ListAccounts from the service layer.  The Go body ignores its
`accountType` filter parameter entirely, and its print statement
`fmt.Fprintf(&sb, "%s\t%s%i\n", acc.FullName, acc.AccountType, acc.)` is
malformed (dangling `acc.` selector, spurious `%i` verb); the embedding keeps
the determinate part of the loop: one line per account carrying `FullName`
(never populated, hence empty) and the account type, with the filter unused
exactly as in the source. -/
def ListAccounts (st : Store) (accountType : String) : String :=
  let _ := accountType
  let body := String.join ((GetAllAccounts st).map fun a =>
    a.fullName ++ "\t" ++ a.accountType ++ "\n")
  if body = "" then "No accounts found." else body

/-- Start-of-day bound: appending `" 00:00:00"` to a `YYYY-MM-DD` date. -/
def startOfDay (d : Nat) : Nat := d * 1000000

/-- End-of-day bound: appending `" 23:59:59"` to a `YYYY-MM-DD` date. -/
def endOfDay (d : Nat) : Nat := d * 1000000 + 235959

/-- The optional `t.post_date >= startDate 00:00:00` filter. -/
def dateOkStart (sd : Option Nat) (p : Nat) : Prop :=
  match sd with
  | none => True
  | some d => startOfDay d ≤ p

instance (sd : Option Nat) (p : Nat) : Decidable (dateOkStart sd p) :=
  match sd with
  | none => isTrue trivial
  | some _ => Nat.decLe _ _

/-- The optional `t.post_date <= endDate 23:59:59` filter. -/
def dateOkEnd (ed : Option Nat) (p : Nat) : Prop :=
  match ed with
  | none => True
  | some d => p ≤ endOfDay d

instance (ed : Option Nat) (p : Nat) : Decidable (dateOkEnd ed p) :=
  match ed with
  | none => isTrue trivial
  | some _ => Nat.decLe _ _

/-- One result row of the reconstruction query of `GetSplitsForAccount`: the
queried account's split joined with its transaction, one counterpart split and
that split's account. -/
structure JoinRow where
  txGuid : String
  postDate : Nat
  txDescr : String
  splitGuid : String
  memo : String
  valueNum : Int
  valueDenom : Int
  counterAccGuid : String
  counterAccName : String
  counterNum : Int
  counterDenom : Int
  counterMemo : String
deriving DecidableEq

/-- Builds the scanned columns of one join row. -/
def mkJoinRow (t : TxRow) (s s2 : SplitRow) (a2 : AccountRow) : JoinRow :=
  { txGuid := t.guid, postDate := t.postDate, txDescr := t.descr,
    splitGuid := s.guid, memo := s.memo,
    valueNum := s.valueNum, valueDenom := s.valueDenom,
    counterAccGuid := s2.accountGuid, counterAccName := a2.name,
    counterNum := s2.valueNum, counterDenom := s2.valueDenom,
    counterMemo := s2.memo }

/-- Result set of the `GetSplitsForAccount` SQL before ordering and limiting:
`FROM splits s JOIN transactions t ON s.tx_guid = t.guid JOIN splits s2 ON
s2.tx_guid = t.guid AND s2.guid != s.guid JOIN accounts a2 ON
s2.account_guid = a2.guid WHERE s.account_guid = ?` plus the date filters. -/
def joinRows (st : Store) (acct : String) (sd ed : Option Nat) : List JoinRow :=
  st.splits.flatMap fun s =>
    if s.accountGuid = acct then
      st.transactions.flatMap fun t =>
        if s.txGuid = t.guid ∧ dateOkStart sd t.postDate ∧ dateOkEnd ed t.postDate then
          st.splits.flatMap fun s2 =>
            if s2.txGuid = t.guid ∧ s2.guid ≠ s.guid then
              st.accounts.filterMap fun a2 =>
                if s2.accountGuid = a2.guid then some (mkJoinRow t s s2 a2) else none
            else []
        else []
    else []

/-- Comparison relation of `ORDER BY t.post_date DESC`. -/
def rowGe (a b : JoinRow) : Prop := b.postDate ≤ a.postDate

instance : DecidableRel rowGe := fun a b => Nat.decLe b.postDate a.postDate

/-- The split the scan stores as `Splits[0]`: the queried account's own leg
(the counterpart's `AccountName` column is not selected for it, so it stays
empty, and `AccountGUID` is filled from the query argument). -/
def queriedSplit (acct : String) (r : JoinRow) : Split :=
  { guid := r.splitGuid, txGuid := r.txGuid, accountGuid := acct,
    accountName := "", memo := r.memo,
    valueNum := r.valueNum, valueDenom := r.valueDenom }

/-- One counterpart leg as the scan appends it (its split guid is not
selected, so it stays at the Go zero value). -/
def counterSplit (r : JoinRow) : Split :=
  { guid := "", txGuid := r.txGuid, accountGuid := r.counterAccGuid,
    accountName := r.counterAccName, memo := r.counterMemo,
    valueNum := r.counterNum, valueDenom := r.counterDenom }

/-- One step of the `txMap`/`txOrder` accumulation loop of
`GetSplitsForAccount`: a row of a known transaction appends its counterpart
leg; a row of a new transaction appends the transaction (queried split first)
at the end of the order. -/
def addJoinRow (acct : String) (txs : List Transaction) (r : JoinRow) : List Transaction :=
  if txs.any fun t => t.guid == r.txGuid then
    txs.map fun t =>
      if t.guid == r.txGuid then { t with splits := t.splits ++ [counterSplit r] } else t
  else
    txs ++ [{ guid := r.txGuid, postDate := r.postDate, descr := r.txDescr,
              splits := [queriedSplit acct r, counterSplit r] }]

/-- Reconstruction of transactions from the ordered, limited join rows. -/
def groupJoinRows (acct : String) (rows : List JoinRow) : List Transaction :=
  rows.foldl (addJoinRow acct) []

/-- GetSplitsForAccount from the store layer: join rows ordered by post date
descending, truncated by `LIMIT` when the limit is positive (the SQL `LIMIT`
applies to join rows), then grouped back into transactions. -/
def GetSplitsForAccount (st : Store) (acct : String) (sd ed : Option Nat) (limit : Nat) :
    List Transaction :=
  let sorted := List.insertionSort rowGe (joinRows st acct sd ed)
  groupJoinRows acct (if 0 < limit then sorted.take limit else sorted)

/-- Join underlying `GetBalanceForAccount`:
`FROM splits s JOIN transactions t ON s.tx_guid = t.guid`. -/
def balancePairs (st : Store) : List (SplitRow × TxRow) :=
  st.splits.flatMap fun s =>
    (st.transactions.filter fun t => s.txGuid == t.guid).map fun t => (s, t)

/-- Numerator returned by `GetBalanceForAccount`: `SUM(s.value_num)` over the
account's splits with post date up to end-of-day of the optional date
(`COALESCE(SUM(..), 0)` is the empty sum).  SQLite integer `SUM` raises on
64-bit overflow instead of wrapping, so the non-error result is the exact
integer sum. -/
def GetBalanceForAccountNum (st : Store) (acct : String) (ed : Option Nat) : Int :=
  (((balancePairs st).filter fun p =>
      p.1.accountGuid == acct && decide (dateOkEnd ed p.2.postDate)).map
    fun p => p.1.valueNum).sum

/-- Sum of the account's split values whose transaction post date, as a
calendar day, lies in the half-open day interval `(d1, d2]` — the right-hand
side of the balance-additivity property. -/
def rangeSumByDay (st : Store) (acct : String) (d1 d2 : Nat) : Int :=
  (((balancePairs st).filter fun p =>
      p.1.accountGuid == acct && decide (d1 < p.2.postDate / 1000000)
        && decide (p.2.postDate / 1000000 ≤ d2)).map
    fun p => p.1.valueNum).sum

/-- One row of the `GetMonthlyIncomeExpenses` aggregation: a `strftime
'%Y-%m'` month key, an account type, `SUM(value_num)` and
`MAX(value_denom)`. -/
structure MonthRow where
  month : String
  accType : String
  total : Int
  denom : Int
deriving DecidableEq

/-- Mutable per-month record of the `IncomeVsExpenses` bucketing loop. -/
structure MonthData where
  income : Int
  expenses : Int
  denom : Int
deriving DecidableEq

/-- Body of the bucketing loop of `IncomeVsExpenses` for one row: adopt a
positive denominator, then assign the income (negated — Go `int64` negation,
which wraps) or the expense total.  Assignment, not accumulation: the SQL
`GROUP BY` delivers at most one row per (month, type). -/
def applyMonthRow (md : MonthData) (r : MonthRow) : MonthData :=
  let md' := if 0 < r.denom then { md with denom := r.denom } else md
  if r.accType == "INCOME" then { md' with income := wrap64 (-r.total) }
  else if r.accType == "EXPENSE" then { md' with expenses := r.total }
  else md'

/-- One step of the `byMonth`/`monthOrder` accumulation: a known month is
updated in place, a new month is appended (with zero-valued data and the
default denominator 100). -/
def stepMonth (acc : List (String × MonthData)) (r : MonthRow) : List (String × MonthData) :=
  if acc.any fun p => p.1 == r.month then
    acc.map fun p => if p.1 == r.month then (p.1, applyMonthRow p.2 r) else p
  else acc ++ [(r.month, applyMonthRow ⟨0, 0, 100⟩ r)]

/-- The `byMonth` association (keyed in `monthOrder` first-occurrence order)
built by `IncomeVsExpenses` from the aggregation rows. -/
def buildByMonth (rows : List MonthRow) : List (String × MonthData) :=
  rows.foldl stepMonth []

/-- One displayed row of the income-vs-expenses table (month, income,
expenses, net computed as `income - expenses` in Go `int64`, denominator). -/
structure IvERow where
  month : String
  income : Int
  expenses : Int
  net : Int
  denom : Int
deriving DecidableEq

/-- The table rows `IncomeVsExpenses` emits: months sorted ascending
(`sort.Strings`), each with its bucketed data (every sorted key is present in
`byMonth`; the `none` branch is unreachable). -/
def IncomeVsExpensesRows (rows : List MonthRow) : List IvERow :=
  let bm := buildByMonth rows
  (List.insertionSort strLeP (bm.map fun p => p.1)).map fun m =>
    match bm.find? fun p => p.1 == m with
    | some p => { month := m, income := p.2.income, expenses := p.2.expenses,
                  net := wrap64 (p.2.income - p.2.expenses), denom := p.2.denom }
    | none => { month := m, income := 0, expenses := 0, net := 0, denom := 100 }

/-- One aggregated expense category of `SpendingByCategory`. -/
structure CatEntry where
  name : String
  total : Int
  denom : Int
  count : Nat
deriving DecidableEq

/-- Go map read `names[guid]` (zero value for an absent key). -/
def lookupName (names : List (String × String)) (guid : String) : String :=
  (((names.find? fun p => p.1 == guid).map fun p => p.2)).getD ""

/-- The per-category accumulation loop of `SpendingByCategory`: total is the
running `int64` sum of the group's split values (Go addition, wrapping made
explicit), the denominator is the last split's (default 100), the count is
the number of splits. -/
def catEntryOf (names : List (String × String)) (guid : String) (splits : List Split) :
    CatEntry :=
  { name := lookupName names guid
    total := splits.foldl (fun a sp => wrap64 (a + sp.valueNum)) 0
    denom := splits.foldl (fun _ sp => sp.valueDenom) 100
    count := splits.length }

/-- Comparison relation of the descending-by-total sort of
`SpendingByCategory` (`sort.Slice` with `Total > Total`; the embedding's
stable sort realises one order the unstable Go sort may produce, with ties in
enumeration order). -/
def catLe (a b : CatEntry) : Prop := b.total ≤ a.total

instance : DecidableRel catLe := fun a b => Int.decLe b.total a.total

/-- The sorted category list of `SpendingByCategory`.  `byAccount` is the
`map[string][]Split` returned by `GetExpenseSplits`, as an association list in
the enumeration order Go's (randomised) map iteration happens to produce. -/
def SpendingCategories (byAccount : List (String × List Split))
    (names : List (String × String)) : List CatEntry :=
  List.insertionSort catLe (byAccount.map fun p => catEntryOf names p.1 p.2)

/-- The grand-total accumulation over the sorted categories (Go `int64`
addition, wrapping made explicit). -/
def SpendingGrandTotal (cats : List CatEntry) : Int :=
  cats.foldl (fun a c => wrap64 (a + c.total)) 0

/-- The grand-total denominator: last category's denominator, default 100. -/
def SpendingGrandDenom (cats : List CatEntry) : Int :=
  cats.foldl (fun _ c => c.denom) 100

/-- Go `fmt` `"%10s"`: left-pad with spaces to width 10 (no effect on longer
strings). -/
def padLeft (w : Nat) (s : String) : String :=
  String.mk (List.replicate (w - s.length) ' ') ++ s

/-- Go `fmt` `"%-30s"`: right-pad with spaces to width 30. -/
def padRight (w : Nat) (s : String) : String :=
  s ++ String.mk (List.replicate (w - s.length) ' ')

/-- One formatted category row of the spending report. -/
def categoryLine (c : CatEntry) : String :=
  "  " ++ padRight 30 c.name ++ " " ++ padLeft 10 (FormatDecimal c.total c.denom)
    ++ " EUR  (" ++ toString c.count ++ " transactions)\n"

/-- SpendingByCategory from the service layer, from the query results onward:
aggregation per category, descending sort, table plus grand-total row (the
date defaulting from the clock and the parent-account resolution happen
before this point and are inputs here). -/
def SpendingByCategory (byAccount : List (String × List Split))
    (names : List (String × String)) (startDate endDate : String) : String :=
  if byAccount.isEmpty then
    "No expenses found from " ++ startDate ++ " to " ++ endDate ++ "."
  else
    let cats := SpendingCategories byAccount names
    "Spending by category (" ++ startDate ++ " to " ++ endDate ++ "):\n\n"
      ++ String.join (cats.map categoryLine)
      ++ "\n  " ++ padRight 30 "TOTAL" ++ " "
      ++ padLeft 10 (FormatDecimal (SpendingGrandTotal cats) (SpendingGrandDenom cats))
      ++ " EUR\n"

/-- Modelled from the spec: the full colon-joined hierarchical path of an
account ("colon-joined chain of account names from top-level ancestor to the
account itself, excluding the synthetic root").  The repository declares the
computed `FullName` field but contains no code that populates it, so the path
computation itself is taken from the specification's glossary.  Recursion is
fuelled by the account-table size, which bounds every parent chain. -/
def pathNames (st : Store) : Nat → AccountRow → List String
  | 0, a => [a.name]
  | fuel + 1, a =>
    match st.accounts.find? fun p => p.guid == a.parentGuid with
    | some p => if p.accountType == "ROOT" then [a.name] else pathNames st fuel p ++ [a.name]
    | none => [a.name]

/-- Modelled from the spec: full path of an account row, see `pathNames`. -/
def fullPathSpec (st : Store) (a : AccountRow) : String :=
  joinSep ":" (pathNames st st.accounts.length a)

/-- The seed ledger of `internal/gnucash/service_test.go`: the
Checking/Groceries/Restaurant/Salary chart with five transactions. -/
def seedStore : Store :=
  { accounts :=
      [ ⟨"root", "Root Account", "ROOT", "", "", false, false⟩,
        ⟨"assets", "Assets", "ASSET", "root", "", false, false⟩,
        ⟨"expenses", "Expenses", "EXPENSE", "root", "", false, false⟩,
        ⟨"income", "Income", "INCOME", "root", "", false, false⟩,
        ⟨"checking", "Checking", "BANK", "assets", "Main checking account", false, false⟩,
        ⟨"groceries", "Groceries", "EXPENSE", "expenses", "", false, false⟩,
        ⟨"restaurant", "Restaurant", "EXPENSE", "expenses", "", false, false⟩,
        ⟨"salary", "Salary", "INCOME", "income", "", false, false⟩ ],
    transactions :=
      [ ⟨"tx1", 20250115000000, "January salary"⟩,
        ⟨"tx2", 20250120000000, "Supermarket"⟩,
        ⟨"tx3", 20250205000000, "Market"⟩,
        ⟨"tx4", 20250125000000, "Pizza place"⟩,
        ⟨"tx5", 20250215000000, "February salary"⟩ ],
    splits :=
      [ ⟨"sp1a", "tx1", "checking", "", 300000, 100⟩,
        ⟨"sp1b", "tx1", "salary", "", -300000, 100⟩,
        ⟨"sp2a", "tx2", "checking", "", -8550, 100⟩,
        ⟨"sp2b", "tx2", "groceries", "", 8550, 100⟩,
        ⟨"sp3a", "tx3", "checking", "", -4200, 100⟩,
        ⟨"sp3b", "tx3", "groceries", "", 4200, 100⟩,
        ⟨"sp4a", "tx4", "checking", "", -2500, 100⟩,
        ⟨"sp4b", "tx4", "restaurant", "", 2500, 100⟩,
        ⟨"sp5a", "tx5", "checking", "", 300000, 100⟩,
        ⟨"sp5b", "tx5", "salary", "", -300000, 100⟩ ] }

/-- The `Groceries` account row of the seed ledger. -/
def groceriesRow : AccountRow := ⟨"groceries", "Groceries", "EXPENSE", "expenses", "", false, false⟩

/-- A ledger with one three-legged transaction (newer) and one two-legged
transaction (older), both touching account `A`; exercises the row-based
`LIMIT` of the reconstruction query. -/
def threeLegStore : Store :=
  { accounts :=
      [ ⟨"A", "Main", "BANK", "", "", false, false⟩,
        ⟨"B", "Food", "EXPENSE", "", "", false, false⟩,
        ⟨"C", "Tax", "EXPENSE", "", "", false, false⟩,
        ⟨"D", "Rent", "EXPENSE", "", "", false, false⟩ ],
    transactions :=
      [ ⟨"T1", 20250210000000, "Three way"⟩,
        ⟨"T2", 20250101000000, "Two way"⟩ ],
    splits :=
      [ ⟨"sA", "T1", "A", "", 200, 100⟩,
        ⟨"sB", "T1", "B", "", -100, 100⟩,
        ⟨"sC", "T1", "C", "", -100, 100⟩,
        ⟨"sA2", "T2", "A", "", 100, 100⟩,
        ⟨"sD", "T2", "D", "", -100, 100⟩ ] }

/-- A ledger whose single transaction has exactly one split. -/
def lonelyStore : Store :=
  { accounts := [ ⟨"X", "Wallet", "CASH", "", "", false, false⟩ ],
    transactions := [ ⟨"TX", 20250101000000, "lonely"⟩ ],
    splits := [ ⟨"sX", "TX", "X", "", 500, 100⟩ ] }

/-- The single split row of `lonelyStore`. -/
def lonelySplit : SplitRow := ⟨"sX", "TX", "X", "", 500, 100⟩

/-- The single transaction row of `lonelyStore`. -/
def lonelyTx : TxRow := ⟨"TX", 20250101000000, "lonely"⟩

/-- Two expense groups with tied totals, in one enumeration order of the
`GetExpenseSplits` result map. -/
def tiedByAccountA : List (String × List Split) :=
  [ ("g1", [⟨"", "", "g1", "Aaa", "", 1000, 100⟩]),
    ("g2", [⟨"", "", "g2", "Bbb", "", 1000, 100⟩]) ]

/-- The same map contents in the opposite enumeration order. -/
def tiedByAccountB : List (String × List Split) :=
  [ ("g2", [⟨"", "", "g2", "Bbb", "", 1000, 100⟩]),
    ("g1", [⟨"", "", "g1", "Aaa", "", 1000, 100⟩]) ]

/-- Account display names for the tied groups. -/
def tiedNames : List (String × String) := [("g1", "Aaa"), ("g2", "Bbb")]

/-- Two expense groups of `2^62` cents each: every per-category total fits
`int64`, but their grand total does not. -/
def overflowByAccount : List (String × List Split) :=
  [ ("g1", [⟨"", "", "g1", "Aaa", "", 2 ^ 62, 100⟩]),
    ("g2", [⟨"", "", "g2", "Bbb", "", 2 ^ 62, 100⟩]) ]

/-- Monthly aggregation rows as `GetMonthlyIncomeExpenses` returns them for
the seed ledger (income credit-negative, one row per month and type). -/
def sampleMonthRows : List MonthRow :=
  [ ⟨"2025-02", "INCOME", -300000, 100⟩,
    ⟨"2025-01", "EXPENSE", 11050, 100⟩,
    ⟨"2025-01", "INCOME", -300000, 100⟩,
    ⟨"2025-02", "EXPENSE", 4200, 100⟩ ]

/-- Expense groups as `GetExpenseSplits` returns them for the seed ledger
over January–February 2025. -/
def sampleByAccount : List (String × List Split) :=
  [ ("groceries", [⟨"", "", "groceries", "Groceries", "", 8550, 100⟩,
                   ⟨"", "", "groceries", "Groceries", "", 4200, 100⟩]),
    ("restaurant", [⟨"", "", "restaurant", "Restaurant", "", 2500, 100⟩]) ]

/-- Display names of the seed ledger's expense groups. -/
def sampleNames : List (String × String) :=
  [("groceries", "Groceries"), ("restaurant", "Restaurant")]

/-! ## General lemmas -/

theorem wrap64_eq_self {x : Int} (h1 : -(2 ^ 63) ≤ x) (h2 : x < 2 ^ 63) : wrap64 x = x := by
  unfold wrap64
  rw [Int.emod_eq_of_lt (by omega) (by omega)]
  omega

theorem pad2Int_ofNat (n : Nat) : pad2Int (n : Int) = pad2Nat n := by
  unfold pad2Int pad2Nat
  by_cases h : n < 10
  · rw [if_pos ⟨by omega, by exact_mod_cast h⟩, if_pos h]
    rfl
  · rw [if_neg (by omega), if_neg h]
    rfl

theorem nat_div_cross {a1 b1 a2 b2 : Nat} (h1 : 0 < b1) (h2 : 0 < b2)
    (h : a1 * b2 = a2 * b1) : a1 / b1 = a2 / b2 := by
  calc a1 / b1 = a1 * b2 / (b1 * b2) := (Nat.mul_div_mul_right _ _ h2).symm
    _ = a2 * b1 / (b1 * b2) := by rw [h]
    _ = a2 * b1 / (b2 * b1) := by rw [Nat.mul_comm b1 b2]
    _ = a2 / b2 := Nat.mul_div_mul_right _ _ h1

theorem nat_mod_cross {a1 b1 a2 b2 : Nat} (h1 : 0 < b1) (h2 : 0 < b2)
    (h : a1 * b2 = a2 * b1) : a1 % b1 * b2 = a2 % b2 * b1 := by
  have hq : a1 / b1 = a2 / b2 := nat_div_cross h1 h2 h
  have e1 : b1 * (a1 / b1) + a1 % b1 = a1 := Nat.div_add_mod a1 b1
  have e2 : b2 * (a2 / b2) + a2 % b2 = a2 := Nat.div_add_mod a2 b2
  have hexp0 : (b1 * (a1 / b1) + a1 % b1) * b2 = (b2 * (a2 / b2) + a2 % b2) * b1 := by
    rw [e1, e2]
    exact h
  rw [hq] at hexp0
  have hexp : (b1 * (a2 / b2) + a1 % b1) * b2 = (b2 * (a2 / b2) + a2 % b2) * b1 := hexp0
  have lhs : (b1 * (a2 / b2) + a1 % b1) * b2
      = b1 * (a2 / b2) * b2 + a1 % b1 * b2 := by ring
  have rhs : (b2 * (a2 / b2) + a2 % b2) * b1
      = b1 * (a2 / b2) * b2 + a2 % b2 * b1 := by ring
  rw [lhs, rhs] at hexp
  exact Nat.add_left_cancel hexp

/-! ## Lemmas about FormatDecimal -/

theorem FormatDecimal_eq_specDecimal (num denom : Int) (hd : 0 < denom)
    (hl : -(2 ^ 63) < num) (hh : num < 2 ^ 63)
    (hfr : num.natAbs % denom.natAbs * 100 < 2 ^ 63) :
    FormatDecimal num denom = specDecimal num denom := by
  have hdne : denom ≠ 0 := by omega
  have hdcast : denom = (denom.natAbs : Int) := by omega
  have habs : (if num < 0 then wrap64 (-num) else num) = (num.natAbs : Int) := by
    by_cases hneg : num < 0
    · rw [if_pos hneg, wrap64_eq_self (by omega) (by omega)]
      omega
    · rw [if_neg hneg]
      omega
  unfold FormatDecimal specDecimal
  rw [if_neg hdne, if_neg hdne]
  simp only
  rw [habs, hdcast, ← Int.ofNat_tmod, ← Int.ofNat_tdiv]
  have hmul : ((num.natAbs % denom.natAbs : Nat) : Int) * 100
      = ((num.natAbs % denom.natAbs * 100 : Nat) : Int) := by push_cast; ring
  rw [hmul, wrap64_eq_self (by omega) (by omega), ← Int.ofNat_tdiv, pad2Int_ofNat]
  rfl

theorem specDecimal_cross {n1 d1 n2 d2 : Int} (h1 : 0 < d1) (h2 : 0 < d2)
    (h : n1 * d2 = n2 * d1) : specDecimal n1 d1 = specDecimal n2 d2 := by
  have habs : n1.natAbs * d2.natAbs = n2.natAbs * d1.natAbs := by
    have := congrArg Int.natAbs h
    rwa [Int.natAbs_mul, Int.natAbs_mul] at this
  have hb1 : 0 < d1.natAbs := by omega
  have hb2 : 0 < d2.natAbs := by omega
  have hsign : n1 < 0 ↔ n2 < 0 := by
    constructor
    · intro hn
      by_contra hc
      push_neg at hc
      have hlt : n1 * d2 < 0 := mul_neg_of_neg_of_pos hn h2
      have hge : 0 ≤ n2 * d1 := mul_nonneg hc (le_of_lt h1)
      rw [h] at hlt
      omega
    · intro hn
      by_contra hc
      push_neg at hc
      have hlt : n2 * d1 < 0 := mul_neg_of_neg_of_pos hn h1
      have hge : 0 ≤ n1 * d2 := mul_nonneg hc (le_of_lt h2)
      rw [h] at hge
      omega
  have hdiv : n1.natAbs / d1.natAbs = n2.natAbs / d2.natAbs :=
    nat_div_cross hb1 hb2 habs
  have hmodmul : n1.natAbs % d1.natAbs * 100 * d2.natAbs
      = n2.natAbs % d2.natAbs * 100 * d1.natAbs := by
    have := nat_mod_cross hb1 hb2 habs
    calc n1.natAbs % d1.natAbs * 100 * d2.natAbs
        = n1.natAbs % d1.natAbs * d2.natAbs * 100 := by ring
      _ = n2.natAbs % d2.natAbs * d1.natAbs * 100 := by rw [this]
      _ = n2.natAbs % d2.natAbs * 100 * d1.natAbs := by ring
  have hfrac : n1.natAbs % d1.natAbs * 100 / d1.natAbs
      = n2.natAbs % d2.natAbs * 100 / d2.natAbs :=
    nat_div_cross hb1 hb2 hmodmul
  unfold specDecimal
  simp only
  rw [if_neg (show ¬d1 = 0 by omega), if_neg (show ¬d2 = 0 by omega), hdiv, hfrac]
  by_cases hn : n1 < 0
  · rw [if_pos hn, if_pos (hsign.mp hn)]
  · rw [if_neg hn, if_neg (fun hc => hn (hsign.mpr hc))]

/-! ## Claim C4 -/

/-- C4, counterexample: at numerator `-2^63` (the least `int64`) with
denominator 100, Go's `num = -num` wraps back to `-2^63`, so `FormatDecimal`
renders `"--92233720368547758.-8"` instead of the `[-]W.FF` form
`"-92233720368547758.08"` demanded by the claim — the sign is emitted twice
and the fraction is negative, so the claim fails at this input. -/
theorem claim_C4_counterexample :
    (0 : Int) < 100
    ∧ FormatDecimal (-(2 ^ 63)) 100 = "--92233720368547758.-8"
    ∧ specDecimal (-(2 ^ 63)) 100 = "-92233720368547758.08"
    ∧ FormatDecimal (-(2 ^ 63)) 100 ≠ specDecimal (-(2 ^ 63)) 100 := by
  refine ⟨by norm_num, by decide, by decide, by decide⟩

/-- C4, amended: for every (numerator, denominator) pair with denominator > 0
in which the `int64` arithmetic of `FormatDecimal` does not overflow
(numerator strictly between `-2^63` and `2^63`, and
`(|numerator| mod denominator) * 100 < 2^63`), the function returns `[-]W.FF`
with `W` the truncated quotient of `|numerator|` by the denominator and
`FF = (|numerator| mod denominator) * 100 / denominator` in integer division,
the sign emitted only for negative values; a zero denominator renders
`"0.00"`; and two such pairs denoting the same rational render the identical
string. -/
theorem claim_C4_amended (num denom n2 d2 : Int)
    (hd : 0 < denom) (hl : -(2 ^ 63) < num) (hh : num < 2 ^ 63)
    (hfr : num.natAbs % denom.natAbs * 100 < 2 ^ 63)
    (hd2 : 0 < d2) (hl2 : -(2 ^ 63) < n2) (hh2 : n2 < 2 ^ 63)
    (hfr2 : n2.natAbs % d2.natAbs * 100 < 2 ^ 63) :
    FormatDecimal num denom = specDecimal num denom
    ∧ FormatDecimal num 0 = "0.00"
    ∧ (num * d2 = n2 * denom → FormatDecimal num denom = FormatDecimal n2 d2) := by
  refine ⟨FormatDecimal_eq_specDecimal num denom hd hl hh hfr, rfl, fun hcross => ?_⟩
  rw [FormatDecimal_eq_specDecimal num denom hd hl hh hfr,
    FormatDecimal_eq_specDecimal n2 d2 hd2 hl2 hh2 hfr2]
  exact specDecimal_cross hd hd2 hcross

/-- C4, witness: the amended theorem applied at the spec's own example,
`300000/100` and `3000/1`, which denote the same rational. -/
theorem claim_C4_witness :
    FormatDecimal 300000 100 = specDecimal 300000 100
    ∧ FormatDecimal 300000 0 = "0.00"
    ∧ FormatDecimal 300000 100 = FormatDecimal 3000 1 := by
  have h := claim_C4_amended 300000 100 3000 1 (by norm_num) (by norm_num) (by norm_num)
    (by decide) (by norm_num) (by norm_num) (by norm_num) (by decide)
  exact ⟨h.1, h.2.1, h.2.2 (by norm_num)⟩

/-! ## Substring and join lemmas -/

theorem headMatch_append (p post : List Char) : headMatch p (p ++ post) = true := by
  induction p with
  | nil => rfl
  | cons a as ih => simp [headMatch, ih]

theorem containsSeq_append (pre p post : List Char) :
    containsSeq p (pre ++ p ++ post) = true := by
  induction pre with
  | nil =>
    simp only [List.nil_append]
    match hpp : p ++ post with
    | [] =>
      have hp : p = [] := (List.append_eq_nil.mp hpp).1
      subst hp
      rfl
    | c :: rest =>
      show (headMatch p (c :: rest) || containsSeq p rest) = true
      rw [← hpp, headMatch_append, Bool.true_or]
  | cons c pre ih =>
    show (headMatch p (c :: (pre ++ p ++ post)) || containsSeq p (pre ++ p ++ post)) = true
    rw [ih, Bool.or_true]

theorem containsSeq_of_parts {p s : List Char} (pre post : List Char)
    (h : s = pre ++ p ++ post) : containsSeq p s = true := by
  subst h
  exact containsSeq_append pre p post

theorem data_append (a b : String) : (a ++ b).data = a.data ++ b.data := rfl

theorem joinSep_mem_data {x : String} (sep : String) :
    ∀ {l : List String}, x ∈ l →
      ∃ pre post : List Char, (joinSep sep l).data = pre ++ x.data ++ post := by
  intro l
  induction l with
  | nil => intro h; cases h
  | cons y t ih =>
    intro h
    rcases List.mem_cons.mp h with he | hm
    · subst he
      match t with
      | [] => exact ⟨[], [], by simp [joinSep]⟩
      | z :: t' =>
        refine ⟨[], (sep ++ joinSep sep (z :: t')).data, ?_⟩
        show (x ++ sep ++ joinSep sep (z :: t')).data = [] ++ x.data ++ _
        rw [data_append, data_append]
        simp
    · match t with
      | [] => cases hm
      | z :: t' =>
        rcases ih hm with ⟨pre, post, hp⟩
        refine ⟨(y ++ sep).data ++ pre, post, ?_⟩
        show (y ++ sep ++ joinSep sep (z :: t')).data = _
        rw [data_append, hp]
        simp

/-! ## Order lemmas for the byte-lexicographic comparison -/

theorem lexLe_total (a : List Char) : ∀ b, lexLe a b = true ∨ lexLe b a = true := by
  induction a with
  | nil => intro b; left; rfl
  | cons x xs ih =>
    intro b
    match b with
    | [] => right; rfl
    | y :: ys =>
      by_cases h1 : x.toNat < y.toNat
      · left; simp [lexLe, h1]
      · by_cases h2 : y.toNat < x.toNat
        · right; simp [lexLe, h2]
        · rcases ih ys with h | h
          · left; simp [lexLe, h1, h2, h]
          · right; simp [lexLe, h1, h2, h]

theorem lexLe_trans : ∀ {a b c : List Char},
    lexLe a b = true → lexLe b c = true → lexLe a c = true := by
  intro a
  induction a with
  | nil => intro b c _ _; rfl
  | cons x xs ih =>
    intro b c hab hbc
    match b, c with
    | [], _ => simp [lexLe] at hab
    | _ :: _, [] => simp [lexLe] at hbc
    | y :: ys, z :: zs =>
      simp only [lexLe] at hab hbc ⊢
      by_cases hxy : x.toNat < y.toNat
      · by_cases hyz : y.toNat < z.toNat
        · have : x.toNat < z.toNat := by omega
          simp [this]
        · by_cases hzy : z.toNat < y.toNat
          · simp [hyz, hzy] at hbc
          · have : x.toNat < z.toNat := by omega
            simp [this]
      · by_cases hyx : y.toNat < x.toNat
        · simp [hxy, hyx] at hab
        · by_cases hyz : y.toNat < z.toNat
          · have : x.toNat < z.toNat := by omega
            simp [this]
          · by_cases hzy : z.toNat < y.toNat
            · simp [hyz, hzy] at hbc
            · have h1 : ¬x.toNat < z.toNat := by omega
              have h2 : ¬z.toNat < x.toNat := by omega
              simp only [hxy, hyx, if_neg, if_false] at hab
              simp only [hyz, hzy, if_neg, if_false] at hbc
              simp [h1, h2, ih (by simpa using hab) (by simpa using hbc)]

instance : IsTotal String strLeP :=
  ⟨fun a b => lexLe_total a.data b.data⟩

instance : IsTrans String strLeP :=
  ⟨fun _ _ _ hab hbc => lexLe_trans hab hbc⟩

instance : IsTotal CatEntry catLe :=
  ⟨fun a b => by unfold catLe; omega⟩

instance : IsTrans CatEntry catLe :=
  ⟨fun a b c hab hbc => by unfold catLe at hab hbc ⊢; omega⟩

instance {ε α : Type} [DecidableEq ε] [DecidableEq α] : DecidableEq (Except ε α) :=
  fun x y =>
    match x, y with
    | .error a, .error b =>
      if h : a = b then isTrue (congrArg Except.error h)
      else isFalse fun hc => h (by injection hc)
    | .ok a, .ok b =>
      if h : a = b then isTrue (congrArg Except.ok h)
      else isFalse fun hc => h (by injection hc)
    | .error _, .ok _ => isFalse fun hc => by injection hc
    | .ok _, .error _ => isFalse fun hc => by injection hc

/-! ## Claim C1 -/

/-- C1, code bug: `"Expenses:Groceries"` is the full colon-delimited path of
the seed ledger's Groceries account, yet `resolveAccount` fails on it with a
not-found error: `FindAccountsByName` substring-matches only the leaf `name`
column, which no full path ever matches (the repository's own test
`TestGetBalance_FullPath` expects this resolution to succeed). -/
theorem claim_C1_bug :
    groceriesRow ∈ seedStore.accounts
    ∧ fullPathSpec seedStore groceriesRow = "Expenses:Groceries"
    ∧ FindAccountsByName seedStore "Expenses:Groceries" = []
    ∧ resolveAccount seedStore "Expenses:Groceries"
        = .error "no account found matching Expenses:Groceries" := by
  refine ⟨by decide, by decide, by decide, by decide⟩

/-! ## Claim C3 -/

/-- C3, code bug: `ListAccounts` ignores its type filter — the `EXPENSE`-
filtered output is identical to the unfiltered one and still contains the
`BANK` account's line — and no line carries an account path or name, because
the computed `FullName` field is never populated (the print statement in the
source is itself malformed).  The repository's own tests `TestListAccounts`
and `TestListAccounts_FilterByType` expect full paths and an effective
filter. -/
theorem claim_C3_bug :
    ListAccounts seedStore "EXPENSE" = ListAccounts seedStore ""
    ∧ containsSeq "BANK".data (ListAccounts seedStore "EXPENSE").data = true
    ∧ containsSeq "Groceries".data (ListAccounts seedStore "EXPENSE").data = false := by
  refine ⟨rfl, by decide, by decide⟩

/-! ## Claim C9 -/

/-- C9, code bug: `SpendingByCategory` ranges over the Go map returned by
`GetExpenseSplits` and then sorts with the unstable `sort.Slice`, so the
relative order of categories with tied totals depends on the map enumeration
order, which Go randomises per run.  The two stores below hold identical map
contents (a permutation) yet render different report texts, so two
invocations with identical inputs need not produce identical output. -/
theorem claim_C9_bug :
    List.Perm tiedByAccountA tiedByAccountB
    ∧ SpendingByCategory tiedByAccountA tiedNames "2025-01-01" "2025-01-31"
        ≠ SpendingByCategory tiedByAccountB tiedNames "2025-01-01" "2025-01-31" := by
  refine ⟨by decide, by decide⟩

/-! ## Claim C2 -/

/-- C2, counterexample: in `threeLegStore` two transactions touch account `A`
(the unlimited call returns both), but with limit 2 only one transaction comes
back — the SQL `LIMIT` counts join rows, and the newer three-legged
transaction consumes both rows — and with limit 1 that transaction is
returned with only one of its two counterpart legs.  Both outcomes contradict
the claim that the limit counts whole transactions returned with all
counterpart legs. -/
theorem claim_C2_counterexample :
    (GetSplitsForAccount threeLegStore "A" none none 0).length = 2
    ∧ (GetSplitsForAccount threeLegStore "A" none none 2).length = 1
    ∧ (GetSplitsForAccount threeLegStore "A" none none 1).map
        (fun t => (t.guid, t.splits.length)) = [("T1", 2)] := by
  refine ⟨by decide, by decide, by decide⟩

theorem length_addJoinRow (acct : String) (txs : List Transaction) (r : JoinRow) :
    (addJoinRow acct txs r).length ≤ txs.length + 1 := by
  unfold addJoinRow
  by_cases hc : txs.any fun t => t.guid == r.txGuid
  · rw [if_pos hc, List.length_map]
    omega
  · rw [if_neg hc, List.length_append]
    simp

theorem length_groupJoinRows_le (acct : String) :
    ∀ (rows : List JoinRow) (init : List Transaction),
      (List.foldl (addJoinRow acct) init rows).length ≤ init.length + rows.length := by
  intro rows
  induction rows with
  | nil => intro init; simp
  | cons r rs ih =>
    intro init
    calc (List.foldl (addJoinRow acct) init (r :: rs)).length
        = (List.foldl (addJoinRow acct) (addJoinRow acct init r) rs).length := rfl
      _ ≤ (addJoinRow acct init r).length + rs.length := ih _
      _ ≤ init.length + 1 + rs.length := by
          have := length_addJoinRow acct init r
          omega
      _ = init.length + (r :: rs).length := by simp [List.length_cons]; omega

/-- C2, amended: with a positive limit `L`, `GetTransactions` returns at most
`L` matching transactions; the SQL limit counts joined split rows (one per
counterpart leg) rather than transactions, so a transaction with three or
more legs consumes several units of the limit, can push the count below
`min(L, number of matching transactions)`, and can itself be returned with
only part of its counterpart legs. -/
theorem claim_C2_amended (st : Store) (acct : String) (sd ed : Option Nat)
    (limit : Nat) (h : 0 < limit) :
    (GetSplitsForAccount st acct sd ed limit).length ≤ limit := by
  unfold GetSplitsForAccount groupJoinRows
  simp only
  rw [if_pos h]
  calc (List.foldl (addJoinRow acct) []
          ((List.insertionSort rowGe (joinRows st acct sd ed)).take limit)).length
      ≤ ([] : List Transaction).length
        + ((List.insertionSort rowGe (joinRows st acct sd ed)).take limit).length :=
        length_groupJoinRows_le acct _ []
    _ ≤ limit := by
        have := List.length_take limit (List.insertionSort rowGe (joinRows st acct sd ed))
        simp only [List.length_nil, Nat.zero_add, this]
        omega

/-- C2, witness: the amended bound applied at the seed ledger with the
service's default limit 50. -/
theorem claim_C2_witness :
    (GetSplitsForAccount seedStore "checking" none none 50).length ≤ 50 :=
  claim_C2_amended seedStore "checking" none none 50 (by norm_num)

/-! ## Claim C5 -/

theorem candidateLine_in_message (name : String) (l : List Account) {a : Account}
    (ha : a ∈ l) :
    containsSeq (candidateLine a).data
      ("multiple accounts match " ++ name ++ ":\n"
        ++ joinSep "\n" (l.map candidateLine)
        ++ "\nPlease be more specific.").data = true := by
  rcases joinSep_mem_data "\n" (List.mem_map_of_mem candidateLine ha) with ⟨pre, post, hp⟩
  refine containsSeq_of_parts
    (("multiple accounts match " ++ name ++ ":\n").data ++ pre)
    (post ++ "\nPlease be more specific.".data) ?_
  rw [data_append, data_append, hp]
  simp

/-- C5, confirmed: for every store and input name, `resolveAccount` follows
the stated trichotomy — zero substring matches give the not-found error; when
any match is case-insensitively equal to the input, some such exact match is
returned even if other matches exist; two or more matches with no exact one
give the ambiguity error whose message lists every candidate's name and type
(as the `  - NAME [TYPE]` line); and an error is returned exactly in the
first and third situations. -/
theorem claim_C5 (st : Store) (name : String) :
    (FindAccountsByName st name = [] →
      resolveAccount st name = .error ("no account found matching " ++ name))
    ∧ (∀ a ∈ FindAccountsByName st name, eqFold a.name name = true →
        ∃ b, b ∈ FindAccountsByName st name ∧ eqFold b.name name = true
          ∧ resolveAccount st name = .ok b)
    ∧ (2 ≤ (FindAccountsByName st name).length →
        (∀ a ∈ FindAccountsByName st name, eqFold a.name name = false) →
        ∃ msg, resolveAccount st name = .error msg
          ∧ ∀ a ∈ FindAccountsByName st name,
              containsSeq (candidateLine a).data msg.data = true)
    ∧ ((∃ msg, resolveAccount st name = .error msg) ↔
        (FindAccountsByName st name = []
          ∨ (2 ≤ (FindAccountsByName st name).length
              ∧ ∀ a ∈ FindAccountsByName st name, eqFold a.name name = false))) := by
  rcases hm : FindAccountsByName st name with _ | ⟨a, rest⟩
  · have hres : resolveAccount st name = .error ("no account found matching " ++ name) := by
      simp only [resolveAccount, hm]
    refine ⟨fun _ => hres, ?_, ?_, ?_⟩
    · intro b hb
      cases hb
    · intro hlen
      simp at hlen
    · constructor
      · intro _
        left
        rfl
      · intro _
        exact ⟨_, hres⟩
  · rcases hf : (a :: rest).find? (fun x => eqFold x.name name) with _ | b
    · -- no exact match
      have hnone := List.find?_eq_none.mp hf
      rcases rest with _ | ⟨a2, rest2⟩
      · -- single match, returned
        have hres : resolveAccount st name = .ok a := by
          simp only [resolveAccount, hm, hf]
          rw [if_neg (by simp)]
        refine ⟨fun hc => by simp at hc, ?_, ?_, ?_⟩
        · intro b hb hex
          exact absurd hex (by simpa using hnone b hb)
        · intro hlen
          simp at hlen
        · constructor
          · intro ⟨msg, hmsg⟩
            rw [hres] at hmsg
            cases hmsg
          · intro hc
            rcases hc with hc | ⟨hlen, _⟩
            · cases hc
            · simp at hlen
      · -- ambiguity error
        have hres : resolveAccount st name
            = .error ("multiple accounts match " ++ name ++ ":\n"
                ++ joinSep "\n" ((a :: a2 :: rest2).map candidateLine)
                ++ "\nPlease be more specific.") := by
          simp only [resolveAccount, hm, hf]
          rw [if_pos (by simp)]
        refine ⟨fun hc => by simp at hc, ?_, ?_, ?_⟩
        · intro b hb hex
          exact absurd hex (by simpa using hnone b hb)
        · intro _ _
          refine ⟨_, hres, ?_⟩
          intro x hx
          exact candidateLine_in_message name (a :: a2 :: rest2) hx
        · constructor
          · intro _
            right
            refine ⟨by simp, ?_⟩
            intro x hx
            simpa using hnone x hx
          · intro _
            exact ⟨_, hres⟩
    · -- exact match wins
      have hbp : eqFold b.name name = true := by
        have := List.find?_some hf
        simpa using this
      have hbm : b ∈ a :: rest := List.mem_of_find?_eq_some hf
      have hres : resolveAccount st name = .ok b := by
        simp only [resolveAccount, hm, hf]
      refine ⟨fun hc => by simp at hc, ?_, ?_, ?_⟩
      · intro x _ _
        exact ⟨b, hbm, hbp, hres⟩
      · intro _ hno
        exact absurd hbp (by simp [hno b hbm])
      · constructor
        · intro ⟨msg, hmsg⟩
          rw [hres] at hmsg
          cases hmsg
        · intro hc
          rcases hc with hc | ⟨_, hno⟩
          · cases hc
          · exact absurd hbp (by simp [hno b hbm])

/-- C5, witness: the trichotomy's ambiguity arm applied to the seed ledger
with the ambiguous fragment `"e"` (six substring matches, none exact). -/
theorem claim_C5_witness :
    ∃ msg, resolveAccount seedStore "e" = .error msg
      ∧ ∀ a ∈ FindAccountsByName seedStore "e",
          containsSeq (candidateLine a).data msg.data = true :=
  (claim_C5 seedStore "e").2.2.1 (by decide) (by decide)

/-! ## Claim C10 -/

theorem guid_of_mem_foldl (acct : String) :
    ∀ (rows : List JoinRow) (init : List Transaction) (t : Transaction),
      t ∈ List.foldl (addJoinRow acct) init rows →
      (∃ t0 ∈ init, t.guid = t0.guid) ∨ (∃ r ∈ rows, t.guid = r.txGuid) := by
  intro rows
  induction rows with
  | nil =>
    intro init t ht
    exact Or.inl ⟨t, ht, rfl⟩
  | cons r rs ih =>
    intro init t ht
    rcases ih (addJoinRow acct init r) t ht with ⟨t0, ht0, he⟩ | ⟨r', hr', he⟩
    · unfold addJoinRow at ht0
      by_cases hc : init.any fun x => x.guid == r.txGuid
      · rw [if_pos hc] at ht0
        rcases List.mem_map.mp ht0 with ⟨t1, ht1, hmap⟩
        left
        refine ⟨t1, ht1, ?_⟩
        rw [he, ← hmap]
        by_cases hg : t1.guid == r.txGuid
        · rw [if_pos hg]
        · rw [if_neg hg]
      · rw [if_neg hc] at ht0
        rcases List.mem_append.mp ht0 with h1 | h2
        · exact Or.inl ⟨t0, h1, he⟩
        · right
          refine ⟨r, List.mem_cons_self r rs, ?_⟩
          rcases List.mem_singleton.mp h2 with rfl
          exact he
    · exact Or.inr ⟨r', List.mem_cons_of_mem r hr', he⟩

theorem mem_joinRows_parts {st : Store} {acct : String} {sd ed : Option Nat} {r : JoinRow}
    (h : r ∈ joinRows st acct sd ed) :
    ∃ s ∈ st.splits, s.accountGuid = acct
      ∧ ∃ t ∈ st.transactions, s.txGuid = t.guid
      ∧ ∃ s2 ∈ st.splits, s2.txGuid = t.guid ∧ s2.guid ≠ s.guid ∧ r.txGuid = t.guid := by
  unfold joinRows at h
  rcases List.mem_flatMap.mp h with ⟨s, hs, hm1⟩
  by_cases hacc : s.accountGuid = acct
  · rw [if_pos hacc] at hm1
    rcases List.mem_flatMap.mp hm1 with ⟨t, ht, hm2⟩
    by_cases hcnd : s.txGuid = t.guid ∧ dateOkStart sd t.postDate ∧ dateOkEnd ed t.postDate
    · rw [if_pos hcnd] at hm2
      rcases List.mem_flatMap.mp hm2 with ⟨s2, hs2, hm3⟩
      by_cases hcnd2 : s2.txGuid = t.guid ∧ s2.guid ≠ s.guid
      · rw [if_pos hcnd2] at hm3
        rcases List.mem_filterMap.mp hm3 with ⟨a2, _, hsome⟩
        by_cases hga : s2.accountGuid = a2.guid
        · rw [if_pos hga] at hsome
          have hr : r = mkJoinRow t s s2 a2 := by
            injection hsome with h'
            exact h'.symm
          exact ⟨s, hs, hacc, t, ht, hcnd.1, s2, hs2, hcnd2.1, hcnd2.2, by rw [hr]; rfl⟩
        · rw [if_neg hga] at hsome
          cases hsome
      · rw [if_neg hcnd2] at hm3
        cases hm3
    · rw [if_neg hcnd] at hm2
      cases hm2
  · rw [if_neg hacc] at hm1
    cases hm1

/-- C10, confirmed: a transaction whose only split row is the queried
account's own leg is omitted entirely from `GetSplitsForAccount` (and hence
from the transaction report): the reconstruction query's self-join demands a
second split row of the same transaction, so no join row — and so no
reconstructed transaction and no contribution to the count — can carry that
transaction's guid. -/
theorem claim_C10 (st : Store) (acct : String) (sd ed : Option Nat) (limit : Nat)
    (tx : TxRow) (s : SplitRow) (htx : tx ∈ st.transactions) (hs : s ∈ st.splits)
    (hacc : s.accountGuid = acct) (hstx : s.txGuid = tx.guid)
    (honly : ∀ s2 ∈ st.splits, s2.txGuid = tx.guid → s2 = s) :
    ∀ t ∈ GetSplitsForAccount st acct sd ed limit, t.guid ≠ tx.guid := by
  intro t ht heq
  unfold GetSplitsForAccount groupJoinRows at ht
  simp only at ht
  have hrow : ∃ r ∈ joinRows st acct sd ed, t.guid = r.txGuid := by
    rcases guid_of_mem_foldl acct _ [] t ht with ⟨t0, h0, _⟩ | ⟨r, hr, he⟩
    · cases h0
    · refine ⟨r, ?_, he⟩
      have hsorted : r ∈ List.insertionSort rowGe (joinRows st acct sd ed) := by
        by_cases hl : 0 < limit
        · rw [if_pos hl] at hr
          exact List.take_subset limit _ hr
        · rw [if_neg hl] at hr
          exact hr
      exact (List.perm_insertionSort rowGe (joinRows st acct sd ed)).subset hsorted
  rcases hrow with ⟨r, hr, hre⟩
  rcases mem_joinRows_parts hr with ⟨s', hs', hacc', t', ht', hstx', s2, hs2, hs2tx, hneq, hrtx⟩
  have htg : t'.guid = tx.guid := by rw [← hrtx, ← hre, heq]
  have he1 : s' = s := honly s' hs' (by rw [hstx', htg])
  have he2 : s2 = s := honly s2 hs2 (by rw [hs2tx, htg])
  exact hneq (by rw [he1, he2])

/-- C10, witness: the theorem applied to a concrete ledger whose single
transaction has exactly one split, owned by the queried account — no
reconstructed transaction carries that transaction's guid. -/
theorem claim_C10_witness :
    (GetSplitsForAccount lonelyStore "X" none none 50).all
      (fun t => decide (t.guid ≠ "TX")) = true := by
  rw [List.all_eq_true]
  intro t ht
  simpa using claim_C10 lonelyStore "X" none none 50 lonelyTx lonelySplit
    (by decide) (by decide) (by decide) (by decide) (by decide) t ht

/-! ## Claim C6 -/

theorem sum_filter_sub {α : Type} (v : α → Int) (f1 f2 : α → Bool) :
    ∀ (l : List α), (∀ x ∈ l, f1 x = true → f2 x = true) →
      ((l.filter f2).map v).sum - ((l.filter f1).map v).sum
        = ((l.filter fun x => f2 x && !f1 x).map v).sum := by
  intro l
  induction l with
  | nil => simp
  | cons x xs ih =>
    intro h
    have hx := h x (List.mem_cons_self x xs)
    have ihs := ih fun y hy => h y (List.mem_cons_of_mem x hy)
    by_cases h2 : f2 x = true
    · by_cases h1 : f1 x = true
      · simp [List.filter_cons, h1, h2]
        omega
      · rw [Bool.not_eq_true] at h1
        simp [List.filter_cons, h1, h2]
        omega
    · have h2' : f2 x = false := by rwa [Bool.not_eq_true] at h2
      have h1 : f1 x = false := by
        by_cases hf : f1 x = true
        · exact absurd (hx hf) h2
        · rwa [Bool.not_eq_true] at hf
      simp [List.filter_cons, h1, h2']
      omega

theorem mem_balancePairs {st : Store} {p : SplitRow × TxRow} (h : p ∈ balancePairs st) :
    p.2 ∈ st.transactions := by
  unfold balancePairs at h
  rcases List.mem_flatMap.mp h with ⟨s, _, hm⟩
  rcases List.mem_map.mp hm with ⟨t, htf, he⟩
  have := (List.mem_filter.mp htf).1
  rw [← he]
  exact this

/-- C6, confirmed: for every store, account and day pair `d1 < d2` (splits of
the account sharing one denominator, post-date timestamps carrying a
well-formed time of day), the balance numerator as of `d2` minus the balance
numerator as of `d1` equals the sum of the account's split values whose
transaction post date falls in the day interval `(d1, d2]`. -/
theorem claim_C6 (st : Store) (acct : String) (d1 d2 : Nat) (dd : Int)
    (h12 : d1 < d2)
    (hwf : ∀ t ∈ st.transactions, t.postDate % 1000000 ≤ 235959)
    (hdenom : ∀ s ∈ st.splits, s.accountGuid = acct → s.valueDenom = dd) :
    GetBalanceForAccountNum st acct (some d2) - GetBalanceForAccountNum st acct (some d1)
      = rangeSumByDay st acct d1 d2 := by
  unfold GetBalanceForAccountNum rangeSumByDay
  rw [sum_filter_sub _ _ _ (balancePairs st) ?himp]
  case himp =>
    intro p _ hp
    rw [Bool.and_eq_true] at hp
    rcases hp with ⟨ha, hd⟩
    rw [Bool.and_eq_true]
    refine ⟨ha, ?_⟩
    rw [decide_eq_true_eq] at hd ⊢
    unfold dateOkEnd endOfDay at hd ⊢
    omega
  · apply congrArg
    apply congrArg
    apply List.filter_congr
    intro p hp
    have hq := hwf p.2 (mem_balancePairs hp)
    by_cases ha : p.1.accountGuid == acct
    · simp only [ha, Bool.true_and]
      rw [Bool.eq_iff_iff]
      simp only [Bool.and_eq_true, Bool.not_eq_true', decide_eq_true_eq,
        decide_eq_false_iff_not]
      unfold dateOkEnd endOfDay
      constructor
      · intro ⟨hle2, hnle1⟩
        simp only [not_le] at hnle1
        omega
      · intro ⟨hgt, hle⟩
        refine ⟨by omega, by omega⟩
    · simp only [ha, Bool.false_and]

/-- C6, witness: the additivity applied to the seed ledger's Checking account
between 2025-01-31 and 2025-02-28 (all its splits have denominator 100). -/
theorem claim_C6_witness :
    GetBalanceForAccountNum seedStore "checking" (some 20250228)
      - GetBalanceForAccountNum seedStore "checking" (some 20250131)
      = rangeSumByDay seedStore "checking" 20250131 20250228 :=
  claim_C6 seedStore "checking" 20250131 20250228 100 (by norm_num) (by decide) (by decide)

/-! ## Claim C7 -/

theorem find?_map_keep {β : Type} (m : String) (g : String × β → String × β)
    (hg : ∀ p, (g p).1 = p.1) :
    ∀ l : List (String × β),
      ((l.map g).find? fun p => p.1 == m) = ((l.find? fun p => p.1 == m).map g) := by
  intro l
  induction l with
  | nil => rfl
  | cons a t ih =>
    simp only [List.map_cons, List.find?]
    rw [hg a]
    by_cases hm : (a.1 == m) = true
    · rw [hm]
      rfl
    · rw [Bool.not_eq_true] at hm
      rw [hm]
      exact ih

theorem any_key_iff_find?_isSome {β : Type} (l : List (String × β)) (m : String) :
    (l.any fun p => p.1 == m) = true ↔ ((l.find? fun p => p.1 == m).isSome = true) := by
  rw [List.any_eq_true, List.find?_isSome]

theorem buildByMonth_find? (m : String) :
    ∀ rows : List MonthRow,
      ((buildByMonth rows).find? fun p => p.1 == m)
        = if (rows.filter fun r => r.month == m) = [] then none
          else some (m, (rows.filter fun r => r.month == m).foldl applyMonthRow ⟨0, 0, 100⟩) := by
  intro rows
  induction rows using List.reverseRecOn with
  | nil => rfl
  | append_singleton rs r ih =>
    have hstep : buildByMonth (rs ++ [r]) = stepMonth (buildByMonth rs) r := by
      unfold buildByMonth
      rw [List.foldl_append]
      rfl
    rw [hstep, List.filter_append]
    unfold stepMonth
    by_cases hmr : (r.month == m) = true
    · have hme : r.month = m := eq_of_beq hmr
      have hfr : List.filter (fun r => r.month == m) [r] = [r] := by
        simp [List.filter, hmr]
      rw [hfr]
      by_cases hany : ((buildByMonth rs).any fun p => p.1 == r.month) = true
      · rw [if_pos hany]
        have hsome : ((buildByMonth rs).find? fun p => p.1 == m).isSome = true := by
          rw [← any_key_iff_find?_isSome]
          rw [hme] at hany
          exact hany
        rw [ih] at hsome
        have hemp : (rs.filter fun r => r.month == m) ≠ [] := by
          intro hc
          rw [if_pos hc] at hsome
          simp at hsome
        have hne : (rs.filter fun r => r.month == m) ++ [r] ≠ [] := by
          simp
        rw [hme]
        have hupd := find?_map_keep m
          (fun p : String × MonthData =>
            if (p.1 == m) = true then (p.1, applyMonthRow p.2 r) else p)
          (fun p => by by_cases h : (p.1 == m) = true <;> simp [h])
          (buildByMonth rs)
        rw [hupd, ih, if_neg hemp, Option.map_some', if_neg hne, List.foldl_append]
        simp
      · rw [if_neg hany]
        have hnone : ((buildByMonth rs).find? fun p => p.1 == m) = none := by
          rcases ho : (buildByMonth rs).find? fun p => p.1 == m with _ | v
          · exact ho
          · exfalso
            apply hany
            rw [hme, any_key_iff_find?_isSome, ho]
            rfl
        have hemp : (rs.filter fun r => r.month == m) = [] := by
          by_contra hc
          rw [ih, if_neg hc] at hnone
          cases hnone
        rw [List.find?_append, hnone, Option.none_or, hemp]
        have hfind : List.find? (fun p => p.1 == m) [(r.month, applyMonthRow ⟨0, 0, 100⟩ r)]
            = some (r.month, applyMonthRow ⟨0, 0, 100⟩ r) :=
          List.find?_cons_of_pos _ hmr
        rw [hfind, if_neg (by simp), hme]
        rfl
    · rw [Bool.not_eq_true] at hmr
      have hfr : List.filter (fun r => r.month == m) [r] = [] := by
        simp only [List.filter]
        rw [hmr]
      rw [hfr, List.append_nil]
      by_cases hany : ((buildByMonth rs).any fun p => p.1 == r.month) = true
      · rw [if_pos hany]
        have hupd := find?_map_keep m
          (fun p : String × MonthData =>
            if (p.1 == r.month) = true then (p.1, applyMonthRow p.2 r) else p)
          (fun p => by by_cases h : (p.1 == r.month) = true <;> simp [h])
          (buildByMonth rs)
        rw [hupd, ih]
        by_cases hemp : (rs.filter fun r => r.month == m) = []
        · rw [if_pos hemp, Option.map_none']
        · rw [if_neg hemp, Option.map_some']
          have hmne : ((m : String) == r.month) = false := by
            rw [beq_eq_false_iff_ne]
            intro hc
            rw [hc] at hmr
            simp at hmr
          simp only [hmne]
          rw [if_neg (by simp)]
      · rw [if_neg hany, List.find?_append]
        have hfind : List.find? (fun p => p.1 == m) [(r.month, applyMonthRow ⟨0, 0, 100⟩ r)]
            = none := by
          rw [List.find?_cons_of_neg _ (by simp [hmr])]
          rfl
        rw [hfind, Option.or_none, ih]

theorem income_applyMonthRow_ne {md : MonthData} {x : MonthRow}
    (hx : (x.accType == "INCOME") = false) :
    (applyMonthRow md x).income = md.income := by
  by_cases hd : 0 < x.denom <;> by_cases he : (x.accType == "EXPENSE") = true <;>
    simp [applyMonthRow, hx, hd, he]

theorem expenses_applyMonthRow_ne {md : MonthData} {x : MonthRow}
    (hx : (x.accType == "EXPENSE") = false) :
    (applyMonthRow md x).expenses = md.expenses := by
  by_cases hd : 0 < x.denom <;> by_cases hi : (x.accType == "INCOME") = true <;>
    simp [applyMonthRow, hx, hd, hi]

theorem income_foldl_no (l : List MonthRow) :
    ∀ (init : MonthData), (∀ r ∈ l, (r.accType == "INCOME") = false) →
      (l.foldl applyMonthRow init).income = init.income := by
  induction l with
  | nil => intro init _; rfl
  | cons x t ih =>
    intro init h
    rw [List.foldl_cons, ih _ fun r hr => h r (List.mem_cons_of_mem x hr),
      income_applyMonthRow_ne (h x (List.mem_cons_self x t))]

theorem expenses_foldl_no (l : List MonthRow) :
    ∀ (init : MonthData), (∀ r ∈ l, (r.accType == "EXPENSE") = false) →
      (l.foldl applyMonthRow init).expenses = init.expenses := by
  induction l with
  | nil => intro init _; rfl
  | cons x t ih =>
    intro init h
    rw [List.foldl_cons, ih _ fun r hr => h r (List.mem_cons_of_mem x hr),
      expenses_applyMonthRow_ne (h x (List.mem_cons_self x t))]

theorem income_foldl_last (l1 l2 : List MonthRow) (r : MonthRow) (init : MonthData)
    (hr : (r.accType == "INCOME") = true)
    (h2 : ∀ x ∈ l2, (x.accType == "INCOME") = false) :
    ((l1 ++ r :: l2).foldl applyMonthRow init).income = wrap64 (-r.total) := by
  rw [List.foldl_append, List.foldl_cons, income_foldl_no l2 _ h2]
  by_cases hd : 0 < r.denom <;> simp [applyMonthRow, hr, hd]

theorem expenses_foldl_last (l1 l2 : List MonthRow) (r : MonthRow) (init : MonthData)
    (hr : (r.accType == "EXPENSE") = true)
    (h2 : ∀ x ∈ l2, (x.accType == "EXPENSE") = false) :
    ((l1 ++ r :: l2).foldl applyMonthRow init).expenses = r.total := by
  rw [List.foldl_append, List.foldl_cons, expenses_foldl_no l2 _ h2]
  have hri : (r.accType == "INCOME") = false := by
    rw [beq_eq_false_iff_ne]
    intro hc
    rw [hc] at hr
    simp at hr
  by_cases hd : 0 < r.denom <;> simp [applyMonthRow, hr, hri, hd]

theorem mem_IvE {rows : List MonthRow} {q : IvERow} (hq : q ∈ IncomeVsExpensesRows rows) :
    (q = ⟨q.month, 0, 0, 0, 100⟩ ∧ (rows.filter fun r => r.month == q.month) = [])
    ∨ ∃ D, D = (rows.filter fun r => r.month == q.month).foldl applyMonthRow ⟨0, 0, 100⟩
        ∧ q = ⟨q.month, D.income, D.expenses, wrap64 (D.income - D.expenses), D.denom⟩ := by
  unfold IncomeVsExpensesRows at hq
  simp only at hq
  rcases List.mem_map.mp hq with ⟨mo, _, hfq⟩
  have hfind := buildByMonth_find? mo rows
  by_cases hemp : (rows.filter fun r => r.month == mo) = []
  · rw [if_pos hemp] at hfind
    rw [hfind] at hfq
    simp only at hfq
    left
    rw [← hfq]
    exact ⟨rfl, hemp⟩
  · rw [if_neg hemp] at hfind
    rw [hfind] at hfq
    simp only at hfq
    right
    refine ⟨(rows.filter fun r => r.month == mo).foldl applyMonthRow ⟨0, 0, 100⟩, ?_, ?_⟩
    · rw [← hfq]
    · rw [← hfq]

theorem month_key_unique {rows : List MonthRow} {r x : MonthRow} {s t : List MonthRow}
    {mo : String}
    (hnodup : (rows.map fun r => (r.month, r.accType)).Nodup)
    (hdec : rows.filter (fun y => y.month == mo) = s ++ r :: t)
    (hx : x ∈ t) (hsame : x.accType = r.accType) : False := by
  have hsub : ((rows.filter fun y => y.month == mo).map fun r => (r.month, r.accType)).Sublist
      (rows.map fun r => (r.month, r.accType)) :=
    List.Sublist.map _ (List.filter_sublist rows)
  have hnd : ((s ++ r :: t).map fun r => (r.month, r.accType)).Nodup := by
    rw [← hdec]
    exact hnodup.sublist hsub
  rw [List.map_append, List.map_cons] at hnd
  have hnd2 : ((r.month, r.accType) :: t.map fun r => (r.month, r.accType)).Nodup :=
    hnd.sublist (List.sublist_append_right _ _)
  have hnotm : (r.month, r.accType) ∉ t.map fun r => (r.month, r.accType) :=
    (List.nodup_cons.mp hnd2).1
  apply hnotm
  have hxm : x.month = r.month := by
    have hxf : x ∈ rows.filter fun y => y.month == mo := by
      rw [hdec]
      exact List.mem_append_right s (List.mem_cons_of_mem r hx)
    have hrf : r ∈ rows.filter fun y => y.month == mo := by
      rw [hdec]
      exact List.mem_append_right s (List.mem_cons_self r t)
    have h1 := (List.mem_filter.mp hxf).2
    have h2 := (List.mem_filter.mp hrf).2
    rw [eq_of_beq h1, eq_of_beq h2]
  have : (x.month, x.accType) = (r.month, r.accType) := by rw [hxm, hsame]
  rw [← this]
  exact List.mem_map_of_mem _ hx

/-- C7 (amended): in every `IncomeVsExpenses` report (whose aggregation rows
have, per the SQL `GROUP BY`, at most one row per (month, account-type)
pair), the displayed income of a month equals the negation of that month's
stored credit-negative income total whenever that total fits strictly inside
`int64` (at exactly `-2^63` the Go negation wraps); the displayed expenses
equal the stored expense total unchanged; the displayed net equals income
minus expenses whenever that difference fits `int64`; and the month rows
appear in ascending order. -/
theorem claim_C7_amended (rows : List MonthRow)
    (hnodup : (rows.map fun r => (r.month, r.accType)).Nodup) :
    (∀ r ∈ rows, r.accType = "INCOME" → -(2 ^ 63) < r.total → r.total < 2 ^ 63 →
        ∀ q ∈ IncomeVsExpensesRows rows, q.month = r.month → q.income = -r.total)
    ∧ (∀ r ∈ rows, r.accType = "EXPENSE" →
        ∀ q ∈ IncomeVsExpensesRows rows, q.month = r.month → q.expenses = r.total)
    ∧ (∀ q ∈ IncomeVsExpensesRows rows,
        -(2 ^ 63) ≤ q.income - q.expenses → q.income - q.expenses < 2 ^ 63 →
        q.net = q.income - q.expenses)
    ∧ List.Sorted strLeP ((IncomeVsExpensesRows rows).map fun q => q.month) := by
  refine ⟨?_, ?_, ?_, ?_⟩
  · intro r hr hinc hlo hhi q hq hqm
    have hmem : r ∈ rows.filter fun y => y.month == q.month := by
      rw [List.mem_filter]
      refine ⟨hr, ?_⟩
      rw [hqm]
      simp
    rcases mem_IvE hq with ⟨_, hemp⟩ | ⟨D, hD, hqe⟩
    · rw [hemp] at hmem
      cases hmem
    · rcases List.append_of_mem hmem with ⟨s, t, hdec⟩
      have h2 : ∀ x ∈ t, (x.accType == "INCOME") = false := by
        intro x hx
        by_cases hxa : (x.accType == "INCOME") = true
        · exact absurd
            (month_key_unique hnodup hdec hx (by rw [eq_of_beq hxa, hinc])) not_false
        · rwa [Bool.not_eq_true] at hxa
      have hi : D.income = wrap64 (-r.total) := by
        rw [hD, hdec]
        exact income_foldl_last s t r _ (by rw [hinc]; rfl) h2
      have hq1 : q.income = D.income := by rw [hqe]
      rw [hq1, hi, wrap64_eq_self (by omega) (by omega)]
  · intro r hr hexp q hq hqm
    have hmem : r ∈ rows.filter fun y => y.month == q.month := by
      rw [List.mem_filter]
      refine ⟨hr, ?_⟩
      rw [hqm]
      simp
    rcases mem_IvE hq with ⟨_, hemp⟩ | ⟨D, hD, hqe⟩
    · rw [hemp] at hmem
      cases hmem
    · rcases List.append_of_mem hmem with ⟨s, t, hdec⟩
      have h2 : ∀ x ∈ t, (x.accType == "EXPENSE") = false := by
        intro x hx
        by_cases hxa : (x.accType == "EXPENSE") = true
        · exact absurd
            (month_key_unique hnodup hdec hx (by rw [eq_of_beq hxa, hexp])) not_false
        · rwa [Bool.not_eq_true] at hxa
      have hi : D.expenses = r.total := by
        rw [hD, hdec]
        exact expenses_foldl_last s t r _ (by rw [hexp]; rfl) h2
      have hq1 : q.expenses = D.expenses := by rw [hqe]
      rw [hq1, hi]
  · intro q hq hlo hhi
    rcases mem_IvE hq with ⟨hqe, _⟩ | ⟨D, _, hqe⟩
    · rw [hqe]
      simp
    · have h1 : q.net = wrap64 (D.income - D.expenses) := by rw [hqe]
      have h2 : q.income = D.income := by rw [hqe]
      have h3 : q.expenses = D.expenses := by rw [hqe]
      rw [h1, ← h2, ← h3, wrap64_eq_self hlo hhi]
  · have hmap : (IncomeVsExpensesRows rows).map (fun q => q.month)
        = List.insertionSort strLeP ((buildByMonth rows).map fun p => p.1) := by
      unfold IncomeVsExpensesRows
      simp only
      rw [List.map_map]
      conv_rhs => rw [← List.map_id
        (List.insertionSort strLeP ((buildByMonth rows).map fun p => p.1))]
      apply List.map_congr_left
      intro m _
      rcases hf : (buildByMonth rows).find? fun p => p.1 == m with _ | p
      · simp [Function.comp, hf]
      · simp [Function.comp, hf]
    rw [hmap]
    exact List.sorted_insertionSort strLeP _

/-- C7, witness: the amended theorem applied to the seed ledger's monthly
aggregation rows — February's displayed income is the negated stored total,
and the months come out ascending. -/
theorem claim_C7_witness :
    (∀ q ∈ IncomeVsExpensesRows sampleMonthRows, q.month = "2025-02" → q.income = 300000)
    ∧ List.Sorted strLeP ((IncomeVsExpensesRows sampleMonthRows).map fun q => q.month) := by
  have h := claim_C7_amended sampleMonthRows (by decide)
  refine ⟨?_, h.2.2.2⟩
  intro q hq hm
  have := h.1 ⟨"2025-02", "INCOME", -300000, 100⟩ (by decide) rfl (by norm_num) (by norm_num)
    q hq hm
  simpa using this

/-- C7, counterexample: a month whose stored income total is exactly `-2^63`
(the least `int64`).  The negation in `md.Income = -r.Total` wraps, so the
displayed income is `-2^63` itself, not the negation `2^63` the claim
demands. -/
theorem claim_C7_counterexample :
    IncomeVsExpensesRows [⟨"2025-01", "INCOME", -(2 ^ 63), 100⟩]
      = [⟨"2025-01", -(2 ^ 63), 0, -(2 ^ 63), 100⟩]
    ∧ (-(2 ^ 63) : Int) ≠ -(-(2 ^ 63)) := by
  refine ⟨by decide, by decide⟩

/-! ## Claim C8 -/

theorem foldl_wrapAdd (l : List Int) :
    ∀ acc : Int, acc.natAbs + (l.map Int.natAbs).sum < 2 ^ 63 →
      l.foldl (fun a x => wrap64 (a + x)) acc = acc + l.sum := by
  induction l with
  | nil =>
    intro acc _
    simp
  | cons x t ih =>
    intro acc hb
    rw [List.map_cons, List.sum_cons] at hb
    have hx : wrap64 (acc + x) = acc + x := by
      apply wrap64_eq_self <;> omega
    rw [List.foldl_cons, hx, ih (acc + x) (by omega), List.sum_cons]
    omega

theorem sum_map_eq_flat {σ : Type} (v : σ → Int) :
    ∀ l : List (String × List σ),
      (l.map fun p => (p.2.map v).sum).sum = ((l.flatMap fun p => p.2).map v).sum := by
  intro l
  induction l with
  | nil => rfl
  | cons a t ih =>
    rw [List.map_cons, List.sum_cons, List.flatMap_cons, List.map_append, List.sum_append, ih]

theorem sum_nat_map_eq_flat {σ : Type} (v : σ → Nat) :
    ∀ l : List (String × List σ),
      (l.map fun p => (p.2.map v).sum).sum = ((l.flatMap fun p => p.2).map v).sum := by
  intro l
  induction l with
  | nil => rfl
  | cons a t ih =>
    rw [List.map_cons, List.sum_cons, List.flatMap_cons, List.map_append, List.sum_append, ih]

theorem group_sum_le_flat {σ : Type} (v : σ → Nat) (l : List (String × List σ))
    {p : String × List σ} (hp : p ∈ l) :
    (p.2.map v).sum ≤ ((l.flatMap fun q => q.2).map v).sum := by
  induction l with
  | nil => cases hp
  | cons a t ih =>
    rw [List.flatMap_cons, List.map_append, List.sum_append]
    rcases List.mem_cons.mp hp with he | hm
    · rw [he]
      omega
    · have := ih hm
      omega

theorem natAbs_sum_le_sum_natAbs : ∀ l : List Int, l.sum.natAbs ≤ (l.map Int.natAbs).sum := by
  intro l
  induction l with
  | nil => simp
  | cons x t ih =>
    rw [List.sum_cons, List.map_cons, List.sum_cons]
    calc (x + t.sum).natAbs ≤ x.natAbs + t.sum.natAbs := Int.natAbs_add_le x t.sum
      _ ≤ x.natAbs + (t.map Int.natAbs).sum := by omega

theorem foldl_const_last {γ : Type} (key : γ → Int) (d : Int) :
    ∀ (l : List γ) (i : Int), l ≠ [] → (∀ c ∈ l, key c = d) →
      l.foldl (fun _ c => key c) i = d := by
  intro l
  induction l with
  | nil => intro i h _; exact absurd rfl h
  | cons a t ih =>
    intro i _ hall
    rw [List.foldl_cons]
    rcases t with _ | ⟨b, t2⟩
    · exact hall a (List.mem_cons_self a [])
    · exact ih (key a) (by simp) fun c hc => hall c (List.mem_cons_of_mem a hc)

/-- C8 (amended): in every non-empty `SpendingByCategory` report whose
matched splits share one denominator and whose total absolute matched value
stays below `2^63` (beyond which the Go `int64` accumulation wraps), the
grand total equals the exact sum of the per-category totals — which in turn
is the exact sum of every matched split value — the grand-total row carries
the shared denominator, and the category rows are ordered by non-increasing
total. -/
theorem claim_C8_amended (byAccount : List (String × List Split))
    (names : List (String × String)) (d : Int)
    (hne : byAccount ≠ [])
    (hgroups : ∀ p ∈ byAccount, p.2 ≠ [] ∧ ∀ sp ∈ p.2, sp.valueDenom = d)
    (hov : (((byAccount.flatMap fun p => p.2).map fun sp => sp.valueNum.natAbs)).sum
        < 2 ^ 63) :
    SpendingGrandTotal (SpendingCategories byAccount names)
        = ((SpendingCategories byAccount names).map fun c => c.total).sum
    ∧ ((SpendingCategories byAccount names).map fun c => c.total).sum
        = ((byAccount.flatMap fun p => p.2).map fun sp => sp.valueNum).sum
    ∧ SpendingGrandDenom (SpendingCategories byAccount names) = d
    ∧ List.Sorted catLe (SpendingCategories byAccount names) := by
  have habs : ∀ p ∈ byAccount,
      ((p.2.map fun sp => sp.valueNum).map Int.natAbs).sum
        ≤ (((byAccount.flatMap fun q => q.2).map fun sp => sp.valueNum.natAbs)).sum := by
    intro p hp
    rw [List.map_map]
    exact group_sum_le_flat (fun sp => sp.valueNum.natAbs) byAccount hp
  have hcat : ∀ p ∈ byAccount,
      (catEntryOf names p.1 p.2).total = (p.2.map fun sp => sp.valueNum).sum := by
    intro p hp
    unfold catEntryOf
    simp only
    rw [← List.foldl_map (fun sp : Split => sp.valueNum) (fun a x => wrap64 (a + x))]
    rw [foldl_wrapAdd _ 0 (by have h1 := habs p hp; omega)]
    omega
  have hperm : (SpendingCategories byAccount names).Perm
      (byAccount.map fun p => catEntryOf names p.1 p.2) :=
    List.perm_insertionSort catLe _
  have htotals : ((byAccount.map fun p => catEntryOf names p.1 p.2).map fun c => c.total)
      = byAccount.map fun p => (p.2.map fun sp => sp.valueNum).sum := by
    rw [List.map_map]
    exact List.map_congr_left fun p hp => hcat p hp
  have hsum2 : ((SpendingCategories byAccount names).map fun c => c.total).sum
      = ((byAccount.flatMap fun p => p.2).map fun sp => sp.valueNum).sum := by
    rw [(hperm.map fun c => c.total).sum_eq, htotals, sum_map_eq_flat]
  have habs2 : (((SpendingCategories byAccount names).map fun c => c.total).map
      Int.natAbs).sum < 2 ^ 63 := by
    have he : (((SpendingCategories byAccount names).map fun c => c.total).map
        Int.natAbs).sum
        = (((byAccount.map fun p => catEntryOf names p.1 p.2).map fun c => c.total).map
            Int.natAbs).sum :=
      (((hperm.map fun c => c.total).map Int.natAbs).sum_eq)
    rw [he, htotals]
    have hle : ((byAccount.map fun p => (p.2.map fun sp => sp.valueNum).sum).map
        Int.natAbs).sum
        ≤ (byAccount.map fun p =>
            ((p.2.map fun sp => sp.valueNum).map Int.natAbs).sum).sum := by
      rw [List.map_map]
      apply List.sum_le_sum
      intro p _
      exact natAbs_sum_le_sum_natAbs _
    have hflat : (byAccount.map fun p =>
        ((p.2.map fun sp => sp.valueNum).map Int.natAbs).sum).sum
        = (((byAccount.flatMap fun q => q.2).map fun sp => sp.valueNum.natAbs)).sum := by
      have := sum_nat_map_eq_flat (fun sp : Split => sp.valueNum.natAbs) byAccount
      rw [← this]
      apply congrArg
      apply List.map_congr_left
      intro p _
      rw [List.map_map]
      rfl
    omega
  refine ⟨?_, hsum2, ?_, List.sorted_insertionSort catLe _⟩
  · unfold SpendingGrandTotal
    rw [← List.foldl_map (fun c : CatEntry => c.total) (fun a x => wrap64 (a + x))]
    rw [foldl_wrapAdd _ 0 (by omega)]
    omega
  · unfold SpendingGrandDenom
    have hlen : SpendingCategories byAccount names ≠ [] := by
      intro hc
      have h0 := hperm.length_eq
      rw [hc, List.length_nil, List.length_map] at h0
      exact hne (List.length_eq_zero.mp h0.symm)
    apply foldl_const_last (fun c : CatEntry => c.denom) d _ 100 hlen
    intro c hc
    rcases List.mem_map.mp (hperm.subset hc) with ⟨p, hp, he⟩
    rw [← he]
    unfold catEntryOf
    simp only
    rcases hgroups p hp with ⟨hpne, hpd⟩
    exact foldl_const_last (fun sp : Split => sp.valueDenom) d p.2 100 hpne hpd

/-- C8, witness: the amended theorem applied to the seed ledger's expense
groups for January–February 2025 (Groceries 127.50 over two splits,
Restaurant 25.00 over one, all with denominator 100). -/
theorem claim_C8_witness :
    SpendingGrandTotal (SpendingCategories sampleByAccount sampleNames)
        = ((SpendingCategories sampleByAccount sampleNames).map fun c => c.total).sum
    ∧ SpendingGrandDenom (SpendingCategories sampleByAccount sampleNames) = 100
    ∧ List.Sorted catLe (SpendingCategories sampleByAccount sampleNames) := by
  have h := claim_C8_amended sampleByAccount sampleNames 100 (by decide) (by decide)
    (by decide)
  exact ⟨h.1, h.2.2.1, h.2.2.2⟩

/-- C8, counterexample: two expense categories of `2^62` cents each.  Every
per-category total is exact, but the grand-total accumulation wraps to
`-2^63`, while the exact sum of the displayed per-category totals is `2^63` —
so the displayed grand total is not the sum of the category totals. -/
theorem claim_C8_counterexample :
    SpendingGrandTotal (SpendingCategories overflowByAccount tiedNames) = -(2 ^ 63)
    ∧ ((SpendingCategories overflowByAccount tiedNames).map fun c => c.total).sum = 2 ^ 63
    ∧ (-(2 ^ 63) : Int) ≠ 2 ^ 63 := by
  refine ⟨by decide, by decide, by decide⟩

end GnuCash
